import Mathlib

/-!
Shallow embedding of the incremental synchronization controller in
`src/arxiv_tracker/cli.py` (the `run` command): windowed pagination with
freshness cutoff and cross-run dedup, fallback fetch, delivery guards,
and the outcome-gated commit of the seen-set store.
-/

namespace ArxivTracker

/-- A feed entry as produced by `parse_feed` (a dict-like); the controller
reads `id`, `updated`, `published`. `none` models an absent key
(`it.get(...)` returning `None`). -/
structure FeedItem where
  id : Option String
  updated : Option String
  published : Option String
deriving Repr, DecidableEq

/-- `s.replace("Z", "+00:00")` on the character list, cli.py line 183. -/
def replaceZChars : List Char → List Char
  | [] => []
  | c :: rest =>
    if c = 'Z' then '+' :: '0' :: '0' :: ':' :: '0' :: '0' :: replaceZChars rest
    else c :: replaceZChars rest

def replaceZ (s : String) : String := String.mk (replaceZChars s.toList)

/-- `_parse_dt` from cli.py lines 180-187, parameterized by `fromiso`, which
models `datetime.fromisoformat(...).astimezone(timezone.utc)` returning
`none` when it raises. Timestamps are UTC instants modelled as `Int`.
`if not s: return None` covers both a missing key and an empty string. -/
def _parse_dt (fromiso : String → Option Int) : Option String → Option Int
  | none => none
  | some s => if s = "" then none else fromiso (replaceZ s)

/-- Effective timestamp of an item, cli.py line 228:
`_parse_dt(it.get("updated")) or _parse_dt(it.get("published"))`
(a parsed datetime is always truthy in Python). -/
def effTs (fromiso : String → Option Int) (it : FeedItem) : Option Int :=
  match _parse_dt fromiso it.updated with
  | some t => some t
  | none => _parse_dt fromiso it.published

/-- The freshness test of cli.py line 229: `cutoff and t and t < cutoff`. -/
def beforeCutoff (cutoff t : Option Int) : Bool :=
  match cutoff, t with
  | some c, some tv => decide (tv < c)
  | _, _ => false

/-- The dedup test of cli.py line 235: `unique_only and aid and aid in seen_ids`
(`aid` is truthy only when present and non-empty). -/
def dedupSkip (uniqueOnly : Bool) (seen : List String) (aid : Option String) : Bool :=
  uniqueOnly &&
    match aid with
    | some s => !(s == "") && seen.contains s
    | none => false

/-- The inner per-page loop of cli.py lines 226-240: returns the updated
accumulator and the `reached_cutoff` flag. A cutoff hit breaks out at once;
a deduped item is skipped; otherwise the item is appended and the loop
breaks when the accumulator reaches `wantNew`. -/
def scanPage (fromiso : String → Option Int) (cutoff : Option Int)
    (uniqueOnly : Bool) (seen : List String) (wantNew : Nat) :
    List FeedItem → List FeedItem → List FeedItem × Bool
  | [], acc => (acc, false)
  | it :: rest, acc =>
    if beforeCutoff cutoff (effTs fromiso it) then (acc, true)
    else if dedupSkip uniqueOnly seen it.id then
      scanPage fromiso cutoff uniqueOnly seen wantNew rest acc
    else
      let acc2 := acc ++ [it]
      if wantNew ≤ acc2.length then (acc2, false)
      else scanPage fromiso cutoff uniqueOnly seen wantNew rest acc2

/-- Result of the fetch phase: the accumulated items, the final
`reached_cutoff` flag, and the list of `(start, max_results)` arguments of
every `fetch_arxiv_feed` call that was made, in order. -/
structure FetchResult where
  collected : List FeedItem
  reachedCutoff : Bool
  calls : List (Nat × Nat)
deriving Repr, DecidableEq

/-- The outer pagination loop of cli.py lines 217-249. `feed start max` models
`parse_feed(fetch_arxiv_feed(q, start=start, max_results=max, ...)) or []`;
the fuel argument is the number of remaining pages of `range(max_pages)`. -/
def paginateLoop (feed : Nat → Nat → List FeedItem) (fromiso : String → Option Int)
    (cutoff : Option Int) (uniqueOnly : Bool) (seen : List String)
    (wantNew pageSize : Nat) :
    Nat → Nat → List FeedItem → List (Nat × Nat) → FetchResult
  | 0, _start, coll, calls => ⟨coll, false, calls⟩
  | fuel + 1, start, coll, calls =>
    let pageItems := feed start pageSize
    let calls2 := calls ++ [(start, pageSize)]
    if pageItems.isEmpty then ⟨coll, false, calls2⟩
    else
      let r := scanPage fromiso cutoff uniqueOnly seen wantNew pageItems coll
      if wantNew ≤ r.1.length || r.2 then ⟨r.1, r.2, calls2⟩
      else if pageItems.length < pageSize then ⟨r.1, false, calls2⟩
      else paginateLoop feed fromiso cutoff uniqueOnly seen wantNew pageSize
        fuel (start + pageSize) r.1 calls2

/-- cli.py line 213: `max_pages = 20`. -/
def maxPages : Nat := 20

/-- cli.py line 212: `page_size = min(200, max(25, want_new))`. -/
def pageSizeOf (wantNew : Nat) : Nat := min 200 (max 25 wantNew)

/-- cli.py line 209: `want_new = int(cfg.max_results or 50)` (counts are
naturals; `0` is falsy). -/
def wantNewOf (maxResults : Nat) : Nat := if maxResults = 0 then 50 else maxResults

/-- cli.py line 208: `cutoff = now - timedelta(days=since_days) if since_days > 0
else None`, with time in seconds. -/
def cutoffOf (now : Int) (sinceDays : Int) : Option Int :=
  if 0 < sinceDays then some (now - sinceDays * 86400) else none

/-- The whole fetch phase: pagination (lines 211-249) followed by the
fallback fetch (lines 251-257): if nothing was collected and
`fallback_when_empty` is set, one unfiltered fetch `(start=0,
max_results=want_new)` whose parsed items are taken verbatim. -/
def fetchItems (feed : Nat → Nat → List FeedItem) (fromiso : String → Option Int)
    (cutoff : Option Int) (uniqueOnly : Bool) (seen : List String)
    (wantNew : Nat) (fallbackWhenEmpty : Bool) : FetchResult :=
  let r := paginateLoop feed fromiso cutoff uniqueOnly seen wantNew
    (pageSizeOf wantNew) maxPages 0 [] []
  if r.collected.isEmpty && fallbackWhenEmpty then
    ⟨feed 0 wantNew, r.reachedCutoff, r.calls ++ [(0, wantNew)]⟩
  else r

/-- The three on-disk shapes accepted by the seen-set loader
(cli.py lines 199-204): `{"ids": [...]}`, a mapping whose keys are ids,
or a bare list. -/
inductive StoreDoc where
  | idsDict (ids : List String)
  | mapDict (keys : List String)
  | arr (ids : List String)
deriving Repr, DecidableEq

/-- Loading the seen set, cli.py lines 193-206: only when `unique_only` and a
truthy `state_path`; a missing file yields the empty set. -/
def loadSeenIds (uniqueOnly : Bool) (statePath : String) (store : Option StoreDoc) :
    List String :=
  if uniqueOnly && !(statePath == "") then
    match store with
    | none => []
    | some (StoreDoc.idsDict ids) => ids
    | some (StoreDoc.mapDict keys) => keys
    | some (StoreDoc.arr ids) => ids
  else []

/-- The truthy identifier of one item, cli.py lines 489-490:
`aid = it.get("id"); if aid: ...` (`None` and `""` are falsy). -/
def truthyId (it : FeedItem) : Option String :=
  match it.id with
  | some s => if s = "" then none else some s
  | none => none

/-- The truthy identifiers of the fetched items, cli.py lines 488-491. -/
def itemIds (items : List FeedItem) : List String :=
  items.filterMap truthyId

/-- `sorted(set(seen) | ids)` as written at cli.py line 495. -/
def sortedUnion (seen ids : List String) : List String :=
  ((seen ++ ids).dedup).mergeSort fun a b => decide (a ≤ b)

/-- The outcome-gated committer, cli.py lines 485-498: the store is
overwritten with `{"ids": sorted(all_seen)}` iff `unique_only` holds, the
state path is truthy, items were fetched, and site generation or the email
send succeeded; otherwise it is left exactly as it was. -/
def commitSeen (uniqueOnly : Bool) (statePath : String) (items : List FeedItem)
    (siteGenerated emailSent : Bool) (seen : List String)
    (store : Option StoreDoc) : Option StoreDoc :=
  if uniqueOnly && !(statePath == "") && !items.isEmpty && (siteGenerated || emailSent) then
    some (StoreDoc.idsDict (sortedUnion seen (itemIds items)))
  else store

/-- Observable outcome of one pass through the notification step. -/
inductive EmailOutcome where
  | notEnabled
  | skippedProcessGuard
  | skippedFileGuard
  | skippedIncompleteConfig
  | sent
  | sendFailed
deriving Repr, DecidableEq

/-- The guard state: `_SENT_EMAIL` (per process) and the existence of the
snapshot flag file `email_sent_{stamp}.flag` (shared across processes that
use the same stamp and output dir). -/
structure EmailState where
  sentInProcess : Bool
  flagExists : Bool
deriving Repr, DecidableEq

structure EmailResult where
  state : EmailState
  emailSent : Bool
  outcome : EmailOutcome
deriving Repr, DecidableEq

/-- The notification step, cli.py lines 392-482. `credsOk` models
`to_list and sender and passwd`; `sendOk` models `send_email` returning
instead of raising (a raise is caught at line 481 and logged). On a
successful send `_SENT_EMAIL` is set, `email_sent = True`, and the flag
file is touched. -/
def emailStep (enabled credsOk sendOk : Bool) (st : EmailState) : EmailResult :=
  if !enabled then ⟨st, false, EmailOutcome.notEnabled⟩
  else if st.sentInProcess then ⟨st, false, EmailOutcome.skippedProcessGuard⟩
  else if st.flagExists then ⟨st, false, EmailOutcome.skippedFileGuard⟩
  else if !credsOk then ⟨st, false, EmailOutcome.skippedIncompleteConfig⟩
  else if sendOk then ⟨⟨true, true⟩, true, EmailOutcome.sent⟩
  else ⟨st, false, EmailOutcome.sendFailed⟩

/-- `os.path.basename` on a POSIX path: the characters after the last `/`. -/
def basenameChars : List Char → List Char → List Char
  | [], acc => acc
  | c :: rest, acc =>
    if c = '/' then basenameChars rest [] else basenameChars rest (acc ++ [c])

def basename (p : String) : String := String.mk (basenameChars p.toList [])

/-- Consume exactly `n` ASCII digits (`\d{n}`), returning them and the rest. -/
def takeDigits : Nat → List Char → Option (List Char × List Char)
  | 0, rest => some ([], rest)
  | _ + 1, [] => none
  | n + 1, c :: rest =>
    if c.isDigit then
      match takeDigits n rest with
      | some (ds, r) => some (c :: ds, r)
      | none => none
    else none

/-- Consume an exact literal prefix. -/
def stripLit : List Char → List Char → Option (List Char)
  | [], cs => some cs
  | l :: ls, c :: cs => if c = l then stripLit ls cs else none
  | _ :: _, [] => none

def stampLit : List Char := ['a', 'r', 'x', 'i', 'v', '_']

/-- One anchored attempt of the regex `arxiv_(\d{8}_\d{6})` at the head of
`cs`, returning the captured group. -/
def matchStampAt (cs : List Char) : Option (List Char) :=
  match stripLit stampLit cs with
  | none => none
  | some rest =>
    match takeDigits 8 rest with
    | some (d1, '_' :: rest2) =>
      match takeDigits 6 rest2 with
      | some (d2, _) => some (d1 ++ '_' :: d2)
      | none => none
    | _ => none

/-- `re.search(r"arxiv_(\d{8}_\d{6})", name)`: the leftmost position at
which the pattern matches, returning group 1. -/
def findStampToken : List Char → Option (List Char)
  | [] => none
  | c :: rest =>
    match matchStampAt (c :: rest) with
    | some t => some t
    | none => findStampToken rest

/-- `_extract_stamp_from_path` (cli.py lines 46-55): group 1 of the regex on
the basename when it matches, otherwise `time.strftime("%Y%m%d")`, passed
here as `today`. -/
def _extract_stamp_from_path (today : String) (path : String) : String :=
  match findStampToken (basename path).toList with
  | some t => String.mk t
  | none => today

/-- Index of the last `.` in a character list, if any. -/
def lastDotIdx (cs : List Char) : Option Nat :=
  (List.range cs.length).foldl
    (fun acc i => if cs.get? i = some '.' then some i else acc) none

/-- `_fallback_stamp` (cli.py lines 402-404):
`os.path.splitext(os.path.basename(p))[0]`; per CPython, the split happens
at the last dot unless every character before it is a dot. -/
def _fallback_stamp (p : String) : String :=
  let b := (basename p).toList
  match lastDotIdx b with
  | some d =>
    if (b.take d).all (fun c => c = '.') then String.mk b else String.mk (b.take d)
  | none => String.mk b

/-- The snapshot flag file name, cli.py line 412. -/
def flagName (stamp : String) : String := "email_sent_" ++ stamp ++ ".flag"

/-- Shape of the captured stamp token: eight digits, an underscore, six
digits. -/
def StampTokenShape (t : List Char) : Prop :=
  ∃ d1 d2 : List Char, t = d1 ++ '_' :: d2 ∧ d1.length = 8 ∧ d2.length = 6 ∧
    (∀ c ∈ d1, c.isDigit) ∧ (∀ c ∈ d2, c.isDigit)

/-! ### Helper lemmas about the page scan -/

theorem scanPage_subset (fromiso : String → Option Int) (cutoff : Option Int)
    (u : Bool) (seen : List String) (w : Nat) (page : List FeedItem) :
    ∀ acc : List FeedItem, acc ⊆ (scanPage fromiso cutoff u seen w page acc).1 := by
  induction page with
  | nil => intro acc; simp [scanPage]
  | cons it rest ih =>
    intro acc
    simp only [scanPage]
    split
    · exact fun x hx => hx
    · split
      · exact ih acc
      · split
        · exact List.subset_append_left acc [it]
        · exact (List.subset_append_left acc [it]).trans (ih (acc ++ [it]))

theorem scanPage_mem (fromiso : String → Option Int) (cutoff : Option Int)
    (u : Bool) (seen : List String) (w : Nat) (page : List FeedItem) :
    ∀ (acc : List FeedItem) (x : FeedItem),
      x ∈ (scanPage fromiso cutoff u seen w page acc).1 →
      x ∈ acc ∨ (dedupSkip u seen x.id = false ∧
        beforeCutoff cutoff (effTs fromiso x) = false) := by
  induction page with
  | nil => intro acc x hx; exact Or.inl hx
  | cons it rest ih =>
    intro acc x hx
    simp only [scanPage] at hx
    split at hx
    · exact Or.inl hx
    · rename_i hcut
      split at hx
      · exact ih acc x hx
      · rename_i hskip
        split at hx
        · rcases List.mem_append.1 hx with h | h
          · exact Or.inl h
          · simp only [List.mem_singleton] at h
            subst h
            exact Or.inr ⟨Bool.not_eq_true _ ▸ hskip, Bool.not_eq_true _ ▸ hcut⟩
        · rcases ih (acc ++ [it]) x hx with h | h
          · rcases List.mem_append.1 h with h' | h'
            · exact Or.inl h'
            · simp only [List.mem_singleton] at h'
              subst h'
              exact Or.inr ⟨Bool.not_eq_true _ ▸ hskip, Bool.not_eq_true _ ▸ hcut⟩
          · exact Or.inr h

theorem scanPage_length (fromiso : String → Option Int) (cutoff : Option Int)
    (u : Bool) (seen : List String) (w : Nat) (page : List FeedItem) :
    ∀ acc : List FeedItem, acc.length < w →
      (scanPage fromiso cutoff u seen w page acc).1.length ≤ w := by
  induction page with
  | nil => intro acc hacc; exact Nat.le_of_lt hacc
  | cons it rest ih =>
    intro acc hacc
    simp only [scanPage]
    split
    · exact Nat.le_of_lt hacc
    · split
      · exact ih acc hacc
      · split
        · rename_i hquota
          simp only [List.length_append, List.length_singleton]
          omega
        · rename_i hquota
          refine ih (acc ++ [it]) ?_
          simp only [List.length_append, List.length_singleton] at hquota ⊢
          omega

/-! ### Helper lemmas about the pagination loop -/

theorem paginateLoop_mem (feed : Nat → Nat → List FeedItem)
    (fromiso : String → Option Int) (cutoff : Option Int) (u : Bool)
    (seen : List String) (w ps : Nat) :
    ∀ (fuel start : Nat) (coll : List FeedItem) (calls : List (Nat × Nat))
      (x : FeedItem),
      x ∈ (paginateLoop feed fromiso cutoff u seen w ps fuel start coll calls).collected →
      x ∈ coll ∨ (dedupSkip u seen x.id = false ∧
        beforeCutoff cutoff (effTs fromiso x) = false) := by
  intro fuel
  induction fuel with
  | zero => intro start coll calls x hx; exact Or.inl hx
  | succ fuel ih =>
    intro start coll calls x hx
    simp only [paginateLoop] at hx
    split at hx
    · exact Or.inl hx
    · split at hx
      · exact scanPage_mem fromiso cutoff u seen w _ coll x hx
      · split at hx
        · exact scanPage_mem fromiso cutoff u seen w _ coll x hx
        · rcases ih _ _ _ x hx with h | h
          · exact scanPage_mem fromiso cutoff u seen w _ coll x h
          · exact Or.inr h

theorem paginateLoop_length (feed : Nat → Nat → List FeedItem)
    (fromiso : String → Option Int) (cutoff : Option Int) (u : Bool)
    (seen : List String) (w ps : Nat) :
    ∀ (fuel start : Nat) (coll : List FeedItem) (calls : List (Nat × Nat)),
      coll.length < w →
      (paginateLoop feed fromiso cutoff u seen w ps fuel start coll calls).collected.length ≤ w := by
  intro fuel
  induction fuel with
  | zero => intro start coll calls h; exact Nat.le_of_lt h
  | succ fuel ih =>
    intro start coll calls h
    simp only [paginateLoop]
    split
    · exact Nat.le_of_lt h
    · split
      · exact scanPage_length fromiso cutoff u seen w _ coll h
      · split
        · exact scanPage_length fromiso cutoff u seen w _ coll h
        · rename_i hcont _
          refine ih _ _ _ ?_
          simp only [Bool.or_eq_true, decide_eq_true_eq, not_or] at hcont
          omega

theorem paginateLoop_calls (feed : Nat → Nat → List FeedItem)
    (fromiso : String → Option Int) (cutoff : Option Int) (u : Bool)
    (seen : List String) (w ps : Nat) :
    ∀ (fuel start : Nat) (coll : List FeedItem) (calls : List (Nat × Nat)),
      ∃ n, n ≤ fuel ∧
        (paginateLoop feed fromiso cutoff u seen w ps fuel start coll calls).calls =
          calls ++ (List.range n).map (fun i => (start + i * ps, ps)) := by
  intro fuel
  induction fuel with
  | zero =>
    intro start coll calls
    exact ⟨0, Nat.le_refl 0, by simp [paginateLoop]⟩
  | succ fuel ih =>
    intro start coll calls
    simp only [paginateLoop]
    split
    · exact ⟨1, by omega, by simp [List.range_succ]⟩
    · split
      · exact ⟨1, by omega, by simp [List.range_succ]⟩
      · split
        · exact ⟨1, by omega, by simp [List.range_succ]⟩
        · obtain ⟨n, hn, hcalls⟩ := ih (start + ps) _ (calls ++ [(start, ps)])
          refine ⟨n + 1, by omega, ?_⟩
          rw [hcalls, List.append_assoc]
          congr 1
          rw [List.range_succ_eq_map, List.map_cons, List.map_map]
          simp only [Nat.zero_mul, Nat.add_zero, List.singleton_append]
          congr 1
          refine List.map_congr_left fun i _ => ?_
          simp only [Function.comp_apply]
          congr 1
          rw [Nat.succ_mul]
          ring

theorem paginateLoop_firstStop (feed : Nat → Nat → List FeedItem)
    (fromiso : String → Option Int) (cutoff : Option Int) (u : Bool)
    (seen : List String) (w ps fuel start : Nat)
    (coll : List FeedItem) (calls : List (Nat × Nat))
    (h : feed start ps = [] ∨
      w ≤ (scanPage fromiso cutoff u seen w (feed start ps) coll).1.length ∨
      (scanPage fromiso cutoff u seen w (feed start ps) coll).2 = true ∨
      (feed start ps).length < ps) :
    (paginateLoop feed fromiso cutoff u seen w ps (fuel + 1) start coll calls).calls =
      calls ++ [(start, ps)] := by
  simp only [paginateLoop]
  split
  · rfl
  · rename_i hne
    split
    · rfl
    · rename_i hq
      split
      · rfl
      · rename_i hshort
        exfalso
        simp only [Bool.or_eq_true, decide_eq_true_eq, not_or] at hq
        rcases h with h | h | h | h
        · exact hne (by simp [h])
        · exact hq.1 h
        · exact hq.2 h
        · exact hshort h

/-! ### Helper lemmas about the stamp regex -/

theorem stripLit_eq : ∀ (lit cs rest : List Char),
    stripLit lit cs = some rest → cs = lit ++ rest := by
  intro lit
  induction lit with
  | nil =>
    intro cs rest h
    simp only [stripLit, Option.some.injEq] at h
    simp [h]
  | cons l ls ih =>
    intro cs rest h
    cases cs with
    | nil => simp [stripLit] at h
    | cons c cs' =>
      simp only [stripLit] at h
      split at h
      · rename_i hc
        subst hc
        simpa using ih cs' rest h
      · exact absurd h (by simp)

theorem takeDigits_spec : ∀ (n : Nat) (cs ds r : List Char),
    takeDigits n cs = some (ds, r) →
    cs = ds ++ r ∧ ds.length = n ∧ ∀ c ∈ ds, c.isDigit := by
  intro n
  induction n with
  | zero =>
    intro cs ds r h
    simp only [takeDigits, Option.some.injEq, Prod.mk.injEq] at h
    obtain ⟨rfl, rfl⟩ := h
    simp
  | succ n ih =>
    intro cs ds r h
    cases cs with
    | nil => simp [takeDigits] at h
    | cons c cs' =>
      simp only [takeDigits] at h
      split at h
      · rename_i hdig
        split at h
        · rename_i ds' r' hrec
          simp only [Option.some.injEq, Prod.mk.injEq] at h
          obtain ⟨h1, h2⟩ := h
          subst h1
          subst h2
          obtain ⟨hcs, hlen, hall⟩ := ih cs' _ _ hrec
          refine ⟨by simp [hcs], by simp [hlen], ?_⟩
          intro x hx
          rcases List.mem_cons.1 hx with rfl | hx'
          · exact hdig
          · exact hall x hx'
        · exact absurd h (by simp)
      · exact absurd h (by simp)

theorem matchStampAt_spec (cs t : List Char) (h : matchStampAt cs = some t) :
    StampTokenShape t ∧ stampLit ++ t <+: cs := by
  unfold matchStampAt at h
  split at h
  · exact absurd h (by simp)
  · rename_i rest hstrip
    split at h
    · rename_i d1 rest2 h8
      split at h
      · rename_i d2 rem h6
        simp only [Option.some.injEq] at h
        subst h
        obtain ⟨hr, hl1, hd1⟩ := takeDigits_spec 8 rest d1 ('_' :: rest2) h8
        obtain ⟨hr2, hl2, hd2⟩ := takeDigits_spec 6 rest2 d2 rem h6
        refine ⟨⟨d1, d2, rfl, hl1, hl2, hd1, hd2⟩, ?_⟩
        refine ⟨rem, ?_⟩
        rw [stripLit_eq stampLit cs rest hstrip, hr, hr2]
        simp
      · exact absurd h (by simp)
    · exact absurd h (by simp)

theorem findStampToken_spec : ∀ (cs t : List Char), findStampToken cs = some t →
    StampTokenShape t ∧ stampLit ++ t <:+: cs := by
  intro cs
  induction cs with
  | nil => intro t h; simp [findStampToken] at h
  | cons c rest ih =>
    intro t h
    simp only [findStampToken] at h
    split at h
    · rename_i t' hm
      simp only [Option.some.injEq] at h
      subst h
      obtain ⟨hshape, hpre⟩ := matchStampAt_spec _ _ hm
      exact ⟨hshape, hpre.isInfix⟩
    · obtain ⟨hshape, hinf⟩ := ih t h
      exact ⟨hshape, hinf.trans (List.suffix_cons c rest).isInfix⟩

/-! ### Further helper lemmas -/

theorem truthyId_eq_some (it : FeedItem) (s : String) (h : truthyId it = some s) :
    it.id = some s ∧ s ≠ "" := by
  cases hid : it.id with
  | none => simp [truthyId, hid] at h
  | some sx =>
    simp only [truthyId, hid] at h
    by_cases hsx : sx = ""
    · rw [if_pos hsx] at h; exact absurd h (by simp)
    · rw [if_neg hsx] at h
      simp only [Option.some.injEq] at h
      subst h
      exact ⟨rfl, hsx⟩

theorem mem_sortedUnion (seen ids : List String) (s : String) :
    s ∈ sortedUnion seen ids ↔ s ∈ seen ∨ s ∈ ids := by
  unfold sortedUnion
  rw [List.mem_mergeSort, List.mem_dedup, List.mem_append]

/-! ### Concrete inputs used by witnesses and counterexamples -/

def itA1 : FeedItem := ⟨some "a1", none, none⟩
def itA2 : FeedItem := ⟨some "a2", none, none⟩
def itA3 : FeedItem := ⟨some "a3", some "2024-01-01T00:00:00Z", none⟩
def itNoId : FeedItem := ⟨none, none, none⟩

/-- A feed whose single page is `[a1, a2, a3]` (the spec's dedup scenario). -/
def pageFeedA : Nat → Nat → List FeedItem := fun start _ =>
  if start = 0 then [itA1, itA2, itA3] else []

/-- A feed whose single page holds only the already-seen item `a1`. -/
def seenFeedA : Nat → Nat → List FeedItem := fun start _ =>
  if start = 0 then [itA1] else []

/-- A concrete `fromisoformat` collaborator: a finite table of instants. -/
def exFromiso : String → Option Int := fun s =>
  if s = "t300" then some 300
  else if s = "t200" then some 200
  else if s = "t10" then some 10
  else none

def itB300 : FeedItem := ⟨some "b1", some "t300", none⟩
def itB200 : FeedItem := ⟨some "b2", some "t200", none⟩
def itB10 : FeedItem := ⟨some "b3", some "t10", none⟩

/-- A feed whose single page is descending in time: 300, 200, 10. -/
def pageFeedB : Nat → Nat → List FeedItem := fun start _ =>
  if start = 0 then [itB300, itB200, itB10] else []

/-- A feed whose single page holds only an item older than any cutoff above 10. -/
def oldFeedB : Nat → Nat → List FeedItem := fun start _ =>
  if start = 0 then [itB10] else []

/-! ### Claim theorems -/

/-- C1: Outcome-gated commit — if neither site generation nor the email send
succeeded, the persisted seen-set store after the run equals the store before
the run, even when items were fetched; likewise the store is not written when
`uniqueOnly` is disabled or when no items were fetched. -/
theorem commit_gating_untouched (u : Bool) (sp : String) (items : List FeedItem)
    (sg es : Bool) (seen : List String) (store : Option StoreDoc) :
    (sg = false → es = false → commitSeen u sp items sg es seen store = store) ∧
    (u = false → commitSeen u sp items sg es seen store = store) ∧
    (items = [] → commitSeen u sp items sg es seen store = store) := by
  refine ⟨fun h1 h2 => ?_, fun h => ?_, fun h => ?_⟩
  · subst h1; subst h2; simp [commitSeen]
  · subst h; simp [commitSeen]
  · subst h; simp [commitSeen]

/-- Witness for C1: a run that fetched an item but produced no site and sent
no email leaves a concrete store exactly as it was. -/
theorem commit_gating_untouched_witness :
    commitSeen true ".state/seen.json" [itA1] false false ["a1"]
      (some (StoreDoc.idsDict ["a1"])) = some (StoreDoc.idsDict ["a1"]) :=
  (commit_gating_untouched true ".state/seen.json" [itA1] false false ["a1"]
    (some (StoreDoc.idsDict ["a1"]))).1 rfl rfl

/-- C2: Idempotent delivery — a first invocation with a fresh process guard,
no flag file, complete credentials and a successful send does send and
creates the flag; a second process invocation for the same snapshot (fresh
process guard, flag file now present) is skipped with the non-fatal
file-guard notice, for any credentials/transport behaviour; and within one
process the tripped process guard always skips the send. -/
theorem idempotent_delivery (creds2 send2 creds3 send3 flag : Bool) :
    ((emailStep true true true ⟨false, false⟩).emailSent = true ∧
      (emailStep true true true ⟨false, false⟩).outcome = EmailOutcome.sent ∧
      (emailStep true true true ⟨false, false⟩).state.flagExists = true) ∧
    ((emailStep true creds2 send2
        ⟨false, (emailStep true true true ⟨false, false⟩).state.flagExists⟩).emailSent
        = false ∧
      (emailStep true creds2 send2
        ⟨false, (emailStep true true true ⟨false, false⟩).state.flagExists⟩).outcome
        = EmailOutcome.skippedFileGuard) ∧
    ((emailStep true creds3 send3 ⟨true, flag⟩).emailSent = false ∧
      (emailStep true creds3 send3 ⟨true, flag⟩).outcome =
        EmailOutcome.skippedProcessGuard) := by
  revert creds2 send2 creds3 send3 flag
  decide

/-- C3: Quota bound — for every feed, the paginator accumulates at most
`wantNew = int(max_results or 50)` items. -/
theorem paginator_quota_bound (feed : Nat → Nat → List FeedItem)
    (fromiso : String → Option Int) (cutoff : Option Int) (u : Bool)
    (seen : List String) (maxResults : Nat) :
    (paginateLoop feed fromiso cutoff u seen (wantNewOf maxResults)
        (pageSizeOf (wantNewOf maxResults)) maxPages 0 [] []).collected.length ≤
      wantNewOf maxResults :=
  paginateLoop_length feed fromiso cutoff u seen (wantNewOf maxResults)
    (pageSizeOf (wantNewOf maxResults)) maxPages 0 [] []
    (by simp only [List.length_nil]; unfold wantNewOf; split <;> omega)

/-- C4 counterexample: with `uniqueOnly` enabled, a seen identifier can still
appear in the run's final result — when every page item is deduped away and
the fallback fetch is enabled, the fallback returns the seen item verbatim
(cli.py lines 252-257 apply no dedup). -/
theorem dedup_run_result_counterexample :
    (fetchItems seenFeedA (fun _ => none) none true ["a1"] 10 true).collected =
      [itA1] ∧
    itA1.id = some "a1" ∧ "a1" ∈ (["a1"] : List String) := by
  decide

/-- C4 (amended): with `uniqueOnly` enabled, an item whose truthy identifier
is in the loaded seen set is absent from the Windowed Paginator's accumulated
result; this is also the run's result whenever the fallback fetch is
disabled. (The fallback fetch, when it triggers, returns items verbatim and
may contain seen identifiers.) -/
theorem dedup_exclusion_paginator (feed : Nat → Nat → List FeedItem)
    (fromiso : String → Option Int) (cutoff : Option Int) (seen : List String)
    (w ps fuel start : Nat) (fb : Bool) (x : FeedItem) (s : String) :
    (x ∈ (paginateLoop feed fromiso cutoff true seen w ps fuel start [] []).collected →
      x.id = some s → s ≠ "" → s ∉ seen) ∧
    (fb = false →
      x ∈ (fetchItems feed fromiso cutoff true seen w fb).collected →
      x.id = some s → s ≠ "" → s ∉ seen) := by
  have key : ∀ (ps' fuel' start' : Nat),
      x ∈ (paginateLoop feed fromiso cutoff true seen w ps' fuel' start' [] []).collected →
      x.id = some s → s ≠ "" → s ∉ seen := by
    intro ps' fuel' start' hx hid hs hmem
    rcases paginateLoop_mem feed fromiso cutoff true seen w ps' fuel' start' [] [] x hx
      with h | h
    · simp at h
    · have hd := h.1
      simp [dedupSkip, hid, hs] at hd
      exact hd hmem
  refine ⟨key ps fuel start, fun hfb => ?_⟩
  subst hfb
  intro hx
  have hx' : x ∈ (paginateLoop feed fromiso cutoff true seen w (pageSizeOf w)
      maxPages 0 [] []).collected := by
    simpa [fetchItems] using hx
  exact key (pageSizeOf w) maxPages 0 hx'

/-- Witness for C4 (amended), on the spec's scenario: seen `{a1, a2}`, page
`[a1, a2, a3]`, `uniqueOnly` on, no cutoff, `wantNew = 10`: the collected
item `a3` is not in the seen set. -/
theorem dedup_exclusion_paginator_witness : "a3" ∉ (["a1", "a2"] : List String) :=
  (dedup_exclusion_paginator pageFeedA (fun _ => none) none ["a1", "a2"]
    10 (pageSizeOf 10) maxPages 0 false itA3 "a3").1 (by decide) rfl (by decide)

/-- C5 counterexample: with a cutoff configured, an item strictly older than
the cutoff can still appear in the run's final result — when the whole page
predates the cutoff the paginator collects nothing, and an enabled fallback
fetch returns the old item verbatim (cli.py lines 252-257 apply no cutoff). -/
theorem cutoff_run_result_counterexample :
    (fetchItems oldFeedB exFromiso (some 100) false [] 10 true).collected =
      [itB10] ∧
    beforeCutoff (some 100) (effTs exFromiso itB10) = true := by
  decide

/-- C5 (amended): with a configured cutoff (`since_days > 0`), every item
whose effective timestamp is strictly before the cutoff is absent from the
Windowed Paginator's accumulated result; encountering such an item stops the
page scan at once with `reached_cutoff` set, and a first page that reaches
the cutoff ends pagination after that single fetch. (The fallback fetch,
when it triggers, applies no cutoff.) -/
theorem cutoff_exclusion_paginator (feed : Nat → Nat → List FeedItem)
    (fromiso : String → Option Int) (c now sinceDays : Int) (u : Bool)
    (seen : List String) (w ps fuel start : Nat) (x it : FeedItem)
    (rest acc : List FeedItem) :
    (0 < sinceDays → cutoffOf now sinceDays = some (now - sinceDays * 86400)) ∧
    (x ∈ (paginateLoop feed fromiso (some c) u seen w ps fuel start [] []).collected →
      beforeCutoff (some c) (effTs fromiso x) = false) ∧
    (beforeCutoff (some c) (effTs fromiso it) = true →
      scanPage fromiso (some c) u seen w (it :: rest) acc = (acc, true)) ∧
    ((scanPage fromiso (some c) u seen w (feed 0 ps) []).2 = true →
      (paginateLoop feed fromiso (some c) u seen w ps (fuel + 1) 0 [] []).calls =
        [(0, ps)]) := by
  refine ⟨fun h => by simp [cutoffOf, h], fun hx => ?_, fun hcut => ?_, fun hr => ?_⟩
  · rcases paginateLoop_mem feed fromiso (some c) u seen w ps fuel start [] [] x hx
      with h | h
    · simp at h
    · exact h.2
  · simp [scanPage, hcut]
  · simpa using paginateLoop_firstStop feed fromiso (some c) u seen w ps fuel 0 [] []
      (Or.inr (Or.inr (Or.inl hr)))

/-- Witness for C5 (amended), on the spec's scenario: cutoff 100, one page
descending in time (300, 200, 10): the collected item at 300 passes the
cutoff test, the scan of the page stops at the item at 10 with
`reached_cutoff` set, and pagination ends after one fetch. -/
theorem cutoff_exclusion_paginator_witness :
    beforeCutoff (some 100) (effTs exFromiso itB300) = false ∧
    scanPage exFromiso (some 100) false [] 10 [itB10] [itB300, itB200] =
      ([itB300, itB200], true) ∧
    (paginateLoop pageFeedB exFromiso (some 100) false [] 10 25 (19 + 1) 0 [] []).calls =
      [(0, 25)] :=
  ⟨(cutoff_exclusion_paginator pageFeedB exFromiso 100 0 1 false [] 10 25 19 0
      itB300 itB10 [] [itB300, itB200]).2.1 (by decide),
   (cutoff_exclusion_paginator pageFeedB exFromiso 100 0 1 false [] 10 25 19 0
      itB300 itB10 [] [itB300, itB200]).2.2.1 (by decide),
   (cutoff_exclusion_paginator pageFeedB exFromiso 100 0 1 false [] 10 25 19 0
      itB300 itB10 [] [itB300, itB200]).2.2.2 (by decide)⟩

/-- C6: Monotonic seen set — whenever the committer writes the store, the
written membership is exactly the loaded seen set united with the truthy
identifiers of all fetched items, hence a superset of the loaded set; and
the store is written in the `{"ids": ...}` shape. -/
theorem commit_union_monotone (sp : String) (items : List FeedItem) (sg es : Bool)
    (seen : List String) (store : Option StoreDoc) (s : String)
    (hsp : sp ≠ "") (hitems : items ≠ []) (hout : sg = true ∨ es = true) :
    commitSeen true sp items sg es seen store =
      some (StoreDoc.idsDict (sortedUnion seen (itemIds items))) ∧
    (s ∈ sortedUnion seen (itemIds items) ↔ s ∈ seen ∨ s ∈ itemIds items) ∧
    (s ∈ seen → s ∈ sortedUnion seen (itemIds items)) := by
  refine ⟨?_, mem_sortedUnion seen (itemIds items) s,
    fun h => (mem_sortedUnion seen (itemIds items) s).2 (Or.inl h)⟩
  unfold commitSeen
  rcases hout with h | h <;> subst h <;>
    cases items with
    | nil => exact absurd rfl hitems
    | cons a l => simp [hsp]

/-- Witness for C6: committing item `a3` over seen `{a1, a2}` after a
successful site generation writes the sorted union, which contains `a3`. -/
theorem commit_union_monotone_witness :
    commitSeen true ".state/seen.json" [itA3] true false ["a1", "a2"] none =
      some (StoreDoc.idsDict (sortedUnion ["a1", "a2"] (itemIds [itA3]))) ∧
    ("a3" ∈ sortedUnion ["a1", "a2"] (itemIds [itA3]) ↔
      "a3" ∈ (["a1", "a2"] : List String) ∨ "a3" ∈ itemIds [itA3]) ∧
    ("a3" ∈ (["a1", "a2"] : List String) →
      "a3" ∈ sortedUnion ["a1", "a2"] (itemIds [itA3])) :=
  commit_union_monotone ".state/seen.json" [itA3] true false ["a1", "a2"] none "a3"
    (by decide) (by decide) (Or.inl rfl)

/-- C7: Bounded pagination — the loop makes at most `maxPages = 20` fetch
calls, the `i`-th call is at offset `i * pageSize` with `max_results =
pageSize` (start advances by `pageSize` between pages), and a first page
with fewer than `pageSize` items ends the loop after exactly one fetch,
regardless of `wantNew`. -/
theorem bounded_pagination (feed : Nat → Nat → List FeedItem)
    (fromiso : String → Option Int) (cutoff : Option Int) (u : Bool)
    (seen : List String) (w ps : Nat) :
    ((paginateLoop feed fromiso cutoff u seen w ps maxPages 0 [] []).calls.length ≤
        maxPages ∧ maxPages = 20) ∧
    (∃ n, (paginateLoop feed fromiso cutoff u seen w ps maxPages 0 [] []).calls =
      (List.range n).map fun i => (i * ps, ps)) ∧
    ((feed 0 ps).length < ps →
      (paginateLoop feed fromiso cutoff u seen w ps maxPages 0 [] []).calls =
        [(0, ps)]) := by
  obtain ⟨n, hn, hcalls⟩ :=
    paginateLoop_calls feed fromiso cutoff u seen w ps maxPages 0 [] []
  refine ⟨⟨?_, rfl⟩, ⟨n, ?_⟩, fun hshort => ?_⟩
  · rw [hcalls]; simpa using hn
  · rw [hcalls]
    simp only [List.nil_append]
    exact List.map_congr_left fun i _ => by simp
  · have h20 : maxPages = 19 + 1 := rfl
    rw [h20]
    simpa using paginateLoop_firstStop feed fromiso cutoff u seen w ps 19 0 [] []
      (Or.inr (Or.inr (Or.inr hshort)))

/-- Witness for C7: a first page with one item and `pageSize = 25` ends
pagination after the single fetch `(0, 25)`. -/
theorem bounded_pagination_witness :
    (paginateLoop seenFeedA (fun _ => none) none true ["a1"] 10 25
      maxPages 0 [] []).calls = [(0, 25)] :=
  (bounded_pagination seenFeedA (fun _ => none) none true ["a1"] 10 25).2.2
    (by decide)

/-- C8: Fallback fetch — exactly when the paginator's result is empty and the
fallback flag is enabled, one additional fetch `(start = 0, max_results =
wantNew)` happens and its parsed items become the run's result verbatim
(no cutoff, no dedup); a non-empty paginator result or a disabled flag
leaves the paginator's result untouched, so with the flag disabled an empty
filtered result stays empty. -/
theorem fallback_fetch_spec (feed : Nat → Nat → List FeedItem)
    (fromiso : String → Option Int) (cutoff : Option Int) (u : Bool)
    (seen : List String) (w : Nat) (fb : Bool) :
    ((paginateLoop feed fromiso cutoff u seen w (pageSizeOf w) maxPages 0 [] []).collected
        = [] → fb = true →
      (fetchItems feed fromiso cutoff u seen w fb).collected = feed 0 w ∧
      (fetchItems feed fromiso cutoff u seen w fb).calls =
        (paginateLoop feed fromiso cutoff u seen w (pageSizeOf w) maxPages 0 [] []).calls
          ++ [(0, w)]) ∧
    ((paginateLoop feed fromiso cutoff u seen w (pageSizeOf w) maxPages 0 [] []).collected
        ≠ [] →
      fetchItems feed fromiso cutoff u seen w fb =
        paginateLoop feed fromiso cutoff u seen w (pageSizeOf w) maxPages 0 [] []) ∧
    (fb = false →
      fetchItems feed fromiso cutoff u seen w fb =
        paginateLoop feed fromiso cutoff u seen w (pageSizeOf w) maxPages 0 [] []) ∧
    (fb = false →
      (paginateLoop feed fromiso cutoff u seen w (pageSizeOf w) maxPages 0 [] []).collected
        = [] →
      (fetchItems feed fromiso cutoff u seen w fb).collected = []) := by
  have h3 : fb = false →
      fetchItems feed fromiso cutoff u seen w fb =
        paginateLoop feed fromiso cutoff u seen w (pageSizeOf w) maxPages 0 [] [] := by
    intro hfb
    subst hfb
    simp [fetchItems]
  refine ⟨fun hempty hfb => ?_, fun hne => ?_, h3, fun hfb hempty => ?_⟩
  · subst hfb
    exact ⟨by simp [fetchItems, hempty], by simp [fetchItems, hempty]⟩
  · cases hc : (paginateLoop feed fromiso cutoff u seen w (pageSizeOf w)
        maxPages 0 [] []).collected with
    | nil => exact absurd hc hne
    | cons a l => simp [fetchItems, hc]
  · rw [h3 hfb]
    exact hempty

/-- Witness for C8: the paginator filters out everything (seen item only),
the fallback is enabled, and the run's result is the fallback fetch's page
verbatim with the extra call `(0, 10)` recorded. -/
theorem fallback_fetch_spec_witness :
    (fetchItems seenFeedA (fun _ => none) none true ["a1"] 10 true).collected =
      seenFeedA 0 10 ∧
    (fetchItems seenFeedA (fun _ => none) none true ["a1"] 10 true).calls =
      (paginateLoop seenFeedA (fun _ => none) none true ["a1"] 10 (pageSizeOf 10)
        maxPages 0 [] []).calls ++ [(0, 10)] :=
  (fallback_fetch_spec seenFeedA (fun _ => none) none true ["a1"] 10 true).1
    (by decide) rfl

/-- C9 counterexample: for an artifact name without a timestamp token the
stamp is `time.strftime("%Y%m%d")` (today's date, per the function's own
docstring), not the artifact's base filename: on `outputs/foo.json` (with
today `20261012`) the stamp is `20261012`, while the base filename is
`foo`. The base-filename fallback at cli.py lines 402-408 runs only if
`_extract_stamp_from_path` raises, which it does not. -/
theorem stamp_fallback_counterexample :
    _extract_stamp_from_path "20261012" "outputs/foo.json" = "20261012" ∧
    _fallback_stamp "outputs/foo.json" = "foo" ∧
    ("20261012" : String) ≠ "foo" := by
  decide

/-- C9 (amended): the snapshot stamp is the `arxiv_YYYYMMDD_HHMMSS` token
parsed from the artifact's basename whenever the regex matches — the token
then really occurs in the basename prefixed by `arxiv_` and has the
eight-digits/underscore/six-digits shape — and for every name with no such
token the stamp falls back to the current date string, not to the base
filename. -/
theorem stamp_derivation (today path : String) :
    (∀ t, findStampToken (basename path).toList = some t →
      _extract_stamp_from_path today path = String.mk t ∧
      StampTokenShape t ∧ stampLit ++ t <:+: (basename path).toList) ∧
    (findStampToken (basename path).toList = none →
      _extract_stamp_from_path today path = today) := by
  constructor
  · intro t ht
    refine ⟨?_, (findStampToken_spec _ t ht).1, (findStampToken_spec _ t ht).2⟩
    unfold _extract_stamp_from_path
    rw [ht]
  · intro hn
    unfold _extract_stamp_from_path
    rw [hn]

/-- Witness for C9 (amended): on `outputs/arxiv_20240101_123456.json` the
stamp is the token `20240101_123456`, which occurs in the basename after
`arxiv_` and has the timestamp shape. -/
theorem stamp_derivation_witness :
    _extract_stamp_from_path "20250101" "outputs/arxiv_20240101_123456.json" =
      String.mk ("20240101_123456".toList) ∧
    StampTokenShape ("20240101_123456".toList) ∧
    stampLit ++ ("20240101_123456".toList) <:+:
      (basename "outputs/arxiv_20240101_123456.json").toList :=
  (stamp_derivation "20250101" "outputs/arxiv_20240101_123456.json").1
    ("20240101_123456".toList) (by decide)

/-- C10: id-less items bypass the seen set — the dedup filter never skips an
item whose id is missing or empty (such an item passing the cutoff test is
collected even with `uniqueOnly` enabled, whatever the seen set), and the
committer's written membership only ever gains non-empty identifiers of
fetched items, so an id-less or empty-id item is never added. -/
theorem idless_items_bypass (u : Bool) (seen : List String) (items : List FeedItem)
    (s : String) (fromiso : String → Option Int) (cutoff : Option Int) (w : Nat)
    (it : FeedItem) (rest acc : List FeedItem) :
    dedupSkip u seen none = false ∧
    dedupSkip u seen (some "") = false ∧
    "" ∉ itemIds items ∧
    (s ∈ sortedUnion seen (itemIds items) →
      s ∈ seen ∨ ∃ x ∈ items, x.id = some s ∧ s ≠ "") ∧
    ((it.id = none ∨ it.id = some "") →
      beforeCutoff cutoff (effTs fromiso it) = false →
      it ∈ (scanPage fromiso cutoff u seen w (it :: rest) acc).1) := by
  refine ⟨by simp [dedupSkip], by simp [dedupSkip], ?_, fun hmem => ?_, ?_⟩
  · intro h
    rw [itemIds, List.mem_filterMap] at h
    obtain ⟨x, _, hfx⟩ := h
    exact (truthyId_eq_some x "" hfx).2 rfl
  · rcases (mem_sortedUnion seen (itemIds items) s).1 hmem with h | h
    · exact Or.inl h
    · rw [itemIds, List.mem_filterMap] at h
      obtain ⟨x, hx, hfx⟩ := h
      obtain ⟨hid, hne⟩ := truthyId_eq_some x s hfx
      exact Or.inr ⟨x, hx, hid, hne⟩
  · intro hidless hcut
    have hskip : dedupSkip u seen it.id = false := by
      rcases hidless with h | h <;> rw [h] <;> simp [dedupSkip]
    simp only [scanPage, hcut, hskip, Bool.false_eq_true, if_false]
    split
    · simp
    · exact scanPage_subset fromiso cutoff u seen w rest (acc ++ [it])
        (by simp)

/-- Witness for C10: an item with no id, with `uniqueOnly` enabled and a
non-empty seen set, is still collected by the page scan. -/
theorem idless_items_bypass_witness :
    itNoId ∈ (scanPage (fun _ => none) none true ["a1"] 5 [itNoId] []).1 :=
  (idless_items_bypass true ["a1"] [] "a1" (fun _ => none) none 5 itNoId [] []).2.2.2.2
    (Or.inl rfl) (by decide)

end ArxivTracker
